import Mathlib

/-!
Verification development for `twrs`, a minimal terminal Twitter client
(`src/main.rs`). The program loads credentials from a TOML config file,
bootstraps an OAuth token, then loops: fetch newer timeline posts, merge
them into a `BTreeMap<DateTime<Utc>, Tweet>` keyed by creation time,
render the buffer newest-first in a terminal panel, sleep 5 s.

The shallow embedding below models:
  - timestamps (`DateTime<Utc>`) as `Nat` (only their linear order and
    equality matter to the program);
  - the `BTreeMap` as a strictly-sorted association list with the same
    insert (replace-on-equal-key) and in-order iteration semantics;
  - `TimelineRenderer::update` as an explicit function of the fetch
    result (the network fetch is an external effect, passed as data);
  - the `tui` render closure as a function from the buffer to a list of
    row descriptions, returning `none` where the Rust code would panic
    (the `tweet.user.clone().unwrap()` call);
  - `get_token` as a function of an environment record holding the
    results of every external effect (home dir lookup, file read, TOML
    parse, OAuth network calls, PIN prompt, file write), returning an
    outcome (ok / error / panic) together with the trace of effects the
    code performed on that path;
  - the `main` polling loop as a fuel-indexed iteration of `update`.
-/

namespace Twrs

/-! ## Data model -/

/-- Author of a tweet; of the `egg_mode::user::TwitterUser` fields the
program only reads `screen_name`. -/
structure User where
  screen_name : String
deriving DecidableEq, Repr

/-- A post, `egg_mode::tweet::Tweet` restricted to the fields the program
reads: `created_at` (modelled as `Nat`), the optional `user`, and `text`. -/
structure Tweet where
  created_at : Nat
  user : Option User
  text : String
deriving DecidableEq, Repr

/-- Opaque remote-timeline cursor (`egg_mode::tweet::Timeline`); the program
never inspects it, only replaces it with the one a fetch returns. -/
structure Timeline where
  cursor : Nat
deriving DecidableEq, Repr

/-- OAuth key pair (`egg_mode::KeyPair`). -/
structure KeyPair where
  key : String
  secret : String
deriving DecidableEq, Repr

/-- The stored token form (struct `Token` in `main.rs`): always a consumer
plus access key pair, i.e. always the "access" grant shape. -/
structure Token where
  consumer : KeyPair
  access : KeyPair
deriving DecidableEq, Repr

/-- The library-side token (`egg_mode::Token`): either an access token or a
bearer token. -/
inductive EggToken where
  | Access (consumer : KeyPair) (access : KeyPair)
  | Bearer (s : String)
deriving DecidableEq, Repr

/-- Conversion `impl From<egg_mode::Token> for Token`. The Rust code panics
on the `Bearer` arm (`panic!("wrong token type")`); the panic is modelled as
`none`. -/
def Token.fromEgg : EggToken → Option Token
  | .Access c a => some { access := a, consumer := c }
  | .Bearer _ => none

/-- Conversion `impl From<Token> for egg_mode::Token`; total. -/
def Token.toEgg (t : Token) : EggToken :=
  .Access t.consumer t.access

/-- Error enum of `main.rs` (payloads reduced to their messages). -/
inductive Error where
  | Io (msg : String)
  | Config (msg : String)
  | TOMLDeserialize (msg : String)
  | TOMLSerialize (msg : String)
  | Twitter (msg : String)
deriving DecidableEq, Repr

/-! ## The tweet buffer: `BTreeMap<DateTime<Utc>, Tweet>`

Modelled as an association list strictly sorted by key. `insertTs` keeps
the sort order and replaces the value when the key is already present,
exactly the `BTreeMap::insert` semantics; iteration order is list order. -/

/-- Association list from timestamps to values, intended to be kept
strictly sorted by key (the `BTreeMap` representation invariant). -/
abbrev TsMap (α : Type) := List (Nat × α)

/-- Sorted insert with replace-on-equal-key (`BTreeMap::insert`). -/
def insertTs {α : Type} (k : Nat) (v : α) : TsMap α → TsMap α
  | [] => [(k, v)]
  | (k', v') :: rest =>
    if k < k' then (k, v) :: (k', v') :: rest
    else if k = k' then (k, v) :: rest
    else (k', v') :: insertTs k v rest

/-- Lookup by key (`BTreeMap::get`). -/
def lookupTs {α : Type} (k : Nat) : TsMap α → Option α
  | [] => none
  | (k', v') :: rest => if k = k' then some v' else lookupTs k rest

/-- The key sequence in iteration order. -/
def keysOf {α : Type} (m : TsMap α) : List Nat :=
  m.map (·.1)

/-- The `BTreeMap` representation invariant: keys strictly increasing in
iteration order. -/
def SortedKeys {α : Type} (m : TsMap α) : Prop :=
  (keysOf m).Pairwise (· < ·)

instance {α : Type} (m : TsMap α) : Decidable (SortedKeys m) := by
  unfold SortedKeys; infer_instance

/-! ## TimelineRenderer -/

/-- State of the poll loop: the remote cursor and the merged buffer. -/
structure TimelineRenderer where
  timeline : Timeline
  tweets : TsMap Tweet
deriving DecidableEq, Repr

/-- `TimelineRenderer::new`: fresh cursor, empty buffer (`BTreeMap::new`). -/
def TimelineRenderer.new (tl : Timeline) : TimelineRenderer :=
  { timeline := tl, tweets := [] }

/-- The merge step of `update`: `for tweet in response.response {
self.tweets.insert(tweet.created_at.clone(), tweet); }` — a left fold of
keyed inserts over the fetched page. -/
def mergeTweets (b : TsMap Tweet) (posts : List Tweet) : TsMap Tweet :=
  posts.foldl (fun m tw => insertTs tw.created_at tw m) b

/-- `TimelineRenderer::update`. The awaited network fetch
`self.timeline.newer(None)` is external; its result (new cursor plus
fetched page, or an error) is passed in as data. On success the cursor is
replaced and the page is merged; on failure the error propagates (`?`). -/
def TimelineRenderer.update (r : TimelineRenderer)
    (fetched : Except Error (Timeline × List Tweet)) :
    Except Error TimelineRenderer :=
  match fetched with
  | .error e => .error e
  | .ok (newTl, posts) =>
      .ok { timeline := newTl, tweets := mergeTweets r.tweets posts }

/-- The renderer states reachable by the program: a fresh renderer, or the
successful update of a reachable one. -/
inductive Reaches : TimelineRenderer → Prop
  | base (tl : Timeline) : Reaches (TimelineRenderer.new tl)
  | step {r r' : TimelineRenderer} (tl : Timeline) (posts : List Tweet) :
      Reaches r → TimelineRenderer.update r (.ok (tl, posts)) = .ok r' →
      Reaches r'

/-- The last post of the page carrying timestamp `t`, i.e. the one whose
insert wins under `BTreeMap`'s replace-on-equal-key semantics. Folded in
page order, mirroring the merge loop. -/
def lastAt (t : Nat) (posts : List Tweet) : Option Tweet :=
  posts.foldl (fun acc p => if p.created_at = t then some p else acc) none

/-! ## Map lemmas -/

theorem lookupTs_insertTs_self {α : Type} (k : Nat) (v : α) (m : TsMap α) :
    lookupTs k (insertTs k v m) = some v := by
  induction m with
  | nil => simp [insertTs, lookupTs]
  | cons hd tl ih =>
    obtain ⟨k', v'⟩ := hd
    by_cases h1 : k < k'
    · simp [insertTs, lookupTs, h1]
    · by_cases h2 : k = k'
      · simp [insertTs, lookupTs, h1, h2]
      · simp [insertTs, lookupTs, h1, h2, ih]

theorem lookupTs_insertTs_ne {α : Type} (k t : Nat) (v : α) (m : TsMap α)
    (hne : t ≠ k) : lookupTs t (insertTs k v m) = lookupTs t m := by
  induction m with
  | nil => simp [insertTs, lookupTs, hne]
  | cons hd tl ih =>
    obtain ⟨k', v'⟩ := hd
    by_cases h1 : k < k'
    · simp [insertTs, lookupTs, h1, hne]
    · by_cases h2 : k = k'
      · subst h2
        simp [insertTs, lookupTs, h1, hne]
      · by_cases h3 : t = k'
        · simp [insertTs, lookupTs, h1, h2, h3]
        · simp [insertTs, lookupTs, h1, h2, h3, ih]

theorem mem_keysOf_insertTs {α : Type} (k t : Nat) (v : α) (m : TsMap α) :
    t ∈ keysOf (insertTs k v m) ↔ t = k ∨ t ∈ keysOf m := by
  induction m with
  | nil => simp [insertTs, keysOf]
  | cons hd tl ih =>
    obtain ⟨k', v'⟩ := hd
    by_cases h1 : k < k'
    · simp [insertTs, keysOf, h1]
    · by_cases h2 : k = k'
      · subst h2
        simp [insertTs, keysOf, h1]
      · simp only [insertTs, if_neg h1, if_neg h2, keysOf, List.map_cons,
          List.mem_cons] at *
        tauto

theorem sortedKeys_insertTs {α : Type} (k : Nat) (v : α) (m : TsMap α)
    (h : SortedKeys m) : SortedKeys (insertTs k v m) := by
  induction m with
  | nil => simp [insertTs, SortedKeys, keysOf]
  | cons hd tl ih =>
    obtain ⟨k', v'⟩ := hd
    simp only [SortedKeys, keysOf, List.map_cons, List.pairwise_cons] at h
    obtain ⟨hk', htl⟩ := h
    by_cases h1 : k < k'
    · simp only [insertTs, if_pos h1, SortedKeys, keysOf, List.map_cons,
        List.pairwise_cons, List.mem_cons]
      refine ⟨?_, hk', htl⟩
      rintro b (rfl | hb)
      · exact h1
      · exact h1.trans (hk' b hb)
    · by_cases h2 : k = k'
      · subst h2
        simp only [insertTs, if_neg h1, if_true,
          SortedKeys, keysOf, List.map_cons, List.pairwise_cons]
        exact ⟨hk', htl⟩
      · simp only [insertTs, if_neg h1, if_neg h2, SortedKeys, keysOf,
          List.map_cons, List.pairwise_cons]
        refine ⟨?_, ih htl⟩
        intro b hb
        rcases (mem_keysOf_insertTs k b v tl).mp hb with rfl | hb'
        · omega
        · exact hk' b hb'

theorem lastAt_foldl_acc (t : Nat) (posts : List Tweet) (acc : Option Tweet) :
    posts.foldl (fun a p => if p.created_at = t then some p else a) acc =
      (lastAt t posts).or acc := by
  induction posts generalizing acc with
  | nil => simp [lastAt]
  | cons p ps ih =>
    simp only [lastAt, List.foldl_cons] at *
    rw [ih, ih (if p.created_at = t then some p else none)]
    by_cases hp : p.created_at = t
    · simp only [if_pos hp]
      cases ps.foldl (fun a q => if q.created_at = t then some q else a) none <;>
        simp [Option.or]
    · simp only [if_neg hp]
      cases ps.foldl (fun a q => if q.created_at = t then some q else a) none <;>
        simp [Option.or]

theorem lastAt_cons (t : Nat) (p : Tweet) (ps : List Tweet) :
    lastAt t (p :: ps) =
      (lastAt t ps).or (if p.created_at = t then some p else none) := by
  simp only [lastAt, List.foldl_cons]
  exact lastAt_foldl_acc t ps _

theorem lookupTs_mergeTweets (b : TsMap Tweet) (posts : List Tweet) (t : Nat) :
    lookupTs t (mergeTweets b posts) = (lastAt t posts).or (lookupTs t b) := by
  induction posts generalizing b with
  | nil => simp [mergeTweets, lastAt, Option.or]
  | cons p ps ih =>
    simp only [mergeTweets, List.foldl_cons] at *
    rw [ih (insertTs p.created_at p b), lastAt_cons]
    by_cases hp : p.created_at = t
    · subst hp
      rw [lookupTs_insertTs_self]
      cases lastAt p.created_at ps <;> simp [Option.or]
    · have : t ≠ p.created_at := fun h => hp h.symm
      rw [lookupTs_insertTs_ne _ _ _ _ this]
      simp only [if_neg hp]
      cases lastAt t ps <;> simp [Option.or]

theorem lastAt_mem (t : Nat) (posts : List Tweet) (q : Tweet)
    (h : lastAt t posts = some q) : q ∈ posts ∧ q.created_at = t := by
  induction posts with
  | nil => simp [lastAt] at h
  | cons p ps ih =>
    rw [lastAt_cons] at h
    cases hps : lastAt t ps with
    | some q' =>
      rw [hps] at h
      simp only [Option.or] at h
      obtain rfl : q' = q := by injection h
      obtain ⟨hmem, hts⟩ := ih hps
      exact ⟨List.mem_cons_of_mem _ hmem, hts⟩
    | none =>
      rw [hps] at h
      by_cases hp : p.created_at = t
      · simp only [Option.or, if_pos hp] at h
        obtain rfl : p = q := by injection h
        exact ⟨List.mem_cons_self _ _, hp⟩
      · simp [Option.or, if_neg hp] at h

theorem lastAt_isSome_of_mem (p : Tweet) (posts : List Tweet)
    (h : p ∈ posts) : (lastAt p.created_at posts).isSome := by
  induction posts with
  | nil => simp at h
  | cons q ps ih =>
    rw [lastAt_cons]
    rcases List.mem_cons.mp h with rfl | hmem
    · cases hps : lastAt p.created_at ps <;> simp [Option.or]
    · have := ih hmem
      cases hps : lastAt p.created_at ps with
      | some x => simp [Option.or]
      | none => rw [hps] at this; simp at this

theorem mem_keysOf_mergeTweets (b : TsMap Tweet) (posts : List Tweet)
    (t : Nat) :
    t ∈ keysOf (mergeTweets b posts) ↔
      t ∈ keysOf b ∨ t ∈ posts.map (·.created_at) := by
  induction posts generalizing b with
  | nil => simp [mergeTweets]
  | cons p ps ih =>
    simp only [mergeTweets, List.foldl_cons] at *
    rw [ih (insertTs p.created_at p b), mem_keysOf_insertTs]
    simp only [List.map_cons, List.mem_cons]
    tauto

theorem mem_insertTs {α : Type} (k : Nat) (v : α) (m : TsMap α)
    (q : Nat × α) (h : q ∈ insertTs k v m) : q = (k, v) ∨ q ∈ m := by
  induction m with
  | nil =>
    simp only [insertTs, List.mem_singleton] at h
    exact Or.inl h
  | cons hd tl ih =>
    obtain ⟨k', v'⟩ := hd
    by_cases h1 : k < k'
    · simp only [insertTs, if_pos h1, List.mem_cons] at h
      rcases h with rfl | rfl | hq
      · exact Or.inl rfl
      · exact Or.inr (List.mem_cons_self _ _)
      · exact Or.inr (List.mem_cons_of_mem _ hq)
    · by_cases h2 : k = k'
      · simp only [insertTs, if_neg h1, if_pos h2, List.mem_cons] at h
        rcases h with rfl | hq
        · exact Or.inl rfl
        · exact Or.inr (List.mem_cons_of_mem _ hq)
      · simp only [insertTs, if_neg h1, if_neg h2, List.mem_cons] at h
        rcases h with rfl | hq
        · exact Or.inr (List.mem_cons_self _ _)
        · rcases ih hq with hl | hr
          · exact Or.inl hl
          · exact Or.inr (List.mem_cons_of_mem _ hr)

theorem mem_mergeTweets (b : TsMap Tweet) (posts : List Tweet)
    (q : Nat × Tweet) (h : q ∈ mergeTweets b posts) :
    q ∈ b ∨ ∃ p ∈ posts, q = (p.created_at, p) := by
  induction posts generalizing b with
  | nil => exact Or.inl h
  | cons p ps ih =>
    simp only [mergeTweets, List.foldl_cons] at h
    rcases ih (insertTs p.created_at p b) h with hin | ⟨p', hp', rfl⟩
    · rcases mem_insertTs _ _ _ _ hin with rfl | hb
      · exact Or.inr ⟨p, List.mem_cons_self _ _, rfl⟩
      · exact Or.inl hb
    · exact Or.inr ⟨p', List.mem_cons_of_mem _ hp', rfl⟩

theorem sortedKeys_mergeTweets (b : TsMap Tweet) (posts : List Tweet)
    (h : SortedKeys b) : SortedKeys (mergeTweets b posts) := by
  induction posts generalizing b with
  | nil => exact h
  | cons p ps ih =>
    simp only [mergeTweets, List.foldl_cons] at *
    exact ih _ (sortedKeys_insertTs _ _ _ h)

theorem keysOf_nodup_of_sorted {α : Type} (m : TsMap α) (h : SortedKeys m) :
    (keysOf m).Nodup :=
  h.imp Nat.ne_of_lt

/-- Every key of a buffer built by the program maps to a tweet whose
`created_at` equals that key. -/
def KeysMatch (b : TsMap Tweet) : Prop :=
  ∀ p ∈ b, p.1 = p.2.created_at

theorem keysMatch_insertTs (p : Tweet) (b : TsMap Tweet) (h : KeysMatch b) :
    KeysMatch (insertTs p.created_at p b) := by
  induction b with
  | nil =>
    intro q hq
    simp [insertTs] at hq
    simp [hq]
  | cons hd tl ih =>
    obtain ⟨k', v'⟩ := hd
    have hhd : k' = v'.created_at := h (k', v') (List.mem_cons_self _ _)
    have htl : KeysMatch tl := fun q hq => h q (List.mem_cons_of_mem _ hq)
    intro q hq
    by_cases h1 : p.created_at < k'
    · simp only [insertTs, if_pos h1, List.mem_cons] at hq
      rcases hq with rfl | rfl | hq
      · rfl
      · exact hhd
      · exact htl q hq
    · by_cases h2 : p.created_at = k'
      · simp only [insertTs, if_neg h1, if_pos h2, List.mem_cons] at hq
        rcases hq with rfl | hq
        · rfl
        · exact htl q hq
      · simp only [insertTs, if_neg h1, if_neg h2, List.mem_cons] at hq
        rcases hq with rfl | hq
        · exact hhd
        · exact ih htl q hq

theorem keysMatch_mergeTweets (b : TsMap Tweet) (posts : List Tweet)
    (h : KeysMatch b) : KeysMatch (mergeTweets b posts) := by
  induction posts generalizing b with
  | nil => exact h
  | cons p ps ih =>
    simp only [mergeTweets, List.foldl_cons] at *
    exact ih _ (keysMatch_insertTs p b h)

/-- Every reachable renderer state has a strictly-sorted buffer whose keys
are the creation times of the stored tweets. -/
theorem reaches_invariant (r : TimelineRenderer) (h : Reaches r) :
    SortedKeys r.tweets ∧ KeysMatch r.tweets := by
  induction h with
  | base tl =>
    constructor
    · simp [TimelineRenderer.new, SortedKeys, keysOf]
    · intro p hp; simp [TimelineRenderer.new] at hp
  | step tl posts _ hupd ih =>
    obtain ⟨hs, hk⟩ := ih
    simp only [TimelineRenderer.update, Except.ok.injEq] at hupd
    subst hupd
    exact ⟨sortedKeys_mergeTweets _ _ hs, keysMatch_mergeTweets _ _ hk⟩

/-! ## Rendering (`impl Widget for &TimelineRenderer`)

The render closure iterates `self.tweets.iter().rev().enumerate()` and
builds, per row, a dim `%H:%M:%S` timestamp span, a bold author-handle span
colored `colorous::TABLEAU10[i % 10]`, and the tweet text. The
`tweet.user.clone().unwrap()` call panics when `user` is absent; the panic
is modelled by `Option`. -/

/-- An RGB color (`colorous::Color`). -/
structure Rgb where
  r : Nat
  g : Nat
  b : Nat
deriving DecidableEq, Repr

/-- The fixed qualitative palette `colorous::TABLEAU10` (10 colors). -/
def TABLEAU10 : List Rgb :=
  [⟨0x4e, 0x79, 0xa7⟩, ⟨0xf2, 0x8e, 0x2c⟩, ⟨0xe1, 0x57, 0x59⟩,
   ⟨0x76, 0xb7, 0xb2⟩, ⟨0x59, 0xa1, 0x4f⟩, ⟨0xed, 0xc9, 0x48⟩,
   ⟨0xb0, 0x7a, 0xa1⟩, ⟨0xff, 0x9d, 0xa7⟩, ⟨0x9c, 0x75, 0x5f⟩,
   ⟨0xba, 0xb0, 0xab⟩]

/-- The color the render loop picks for row `i`:
`colors[i % colors.len()]`. -/
def paletteColor (i : Nat) : Rgb :=
  TABLEAU10.get ⟨i % TABLEAU10.length, Nat.mod_lt _ (by decide)⟩

/-- Two-digit zero padding, as in chrono's `%H` / `%M` / `%S` fields. -/
def pad2 (n : Nat) : String :=
  if n < 10 then "0" ++ toString n else toString n

/-- The `created_at.format("%H:%M:%S")` string of a timestamp (modelled as
seconds since an epoch). -/
def formatHMS (t : Nat) : String :=
  pad2 (t / 3600 % 24) ++ ":" ++ pad2 (t / 60 % 60) ++ ":" ++ pad2 (t % 60)

/-- One rendered list item: the dim time span, the colored bold author
handle, and the text span. -/
structure Row where
  time : String
  color : Rgb
  username : String
  text : String
deriving DecidableEq, Repr

/-- Rendering of the buffer entry at enumeration index `i`: `none` models
the `unwrap` panic on a missing `user`. -/
def renderRow (i : Nat) (kt : Nat × Tweet) : Option Row :=
  match kt.2.user with
  | none => none
  | some u =>
      some { time := formatHMS kt.2.created_at
             color := paletteColor i
             username := u.screen_name
             text := kt.2.text }

/-- Rendering of a suffix of the reversed buffer, starting at enumeration
index `i`. -/
def renderFrom (i : Nat) : List (Nat × Tweet) → Option (List Row)
  | [] => some []
  | kt :: rest =>
      match renderRow i kt with
      | none => none
      | some row =>
          match renderFrom (i + 1) rest with
          | none => none
          | some rows => some (row :: rows)

/-- The whole render pass: map over `tweets.iter().rev().enumerate()`. -/
def renderRows (b : TsMap Tweet) : Option (List Row) :=
  renderFrom 0 b.reverse

/-! ## Render lemmas -/

theorem renderFrom_eq_none_iff (l : List (Nat × Tweet)) (i : Nat) :
    renderFrom i l = none ↔ ∃ kt ∈ l, kt.2.user = none := by
  induction l generalizing i with
  | nil => simp [renderFrom]
  | cons kt rest ih =>
    cases hu : kt.2.user with
    | none =>
      simp only [renderFrom, renderRow, hu]
      simp only [List.mem_cons]
      exact ⟨fun _ => ⟨kt, Or.inl rfl, hu⟩, fun _ => trivial⟩
    | some u =>
      simp only [renderFrom, renderRow, hu]
      cases hrest : renderFrom (i + 1) rest with
      | none =>
        simp only [List.mem_cons]
        constructor
        · intro _
          obtain ⟨q, hq, hqu⟩ := (ih (i + 1)).mp hrest
          exact ⟨q, Or.inr hq, hqu⟩
        · intro _; trivial
      | some rows =>
        simp only [List.mem_cons]
        constructor
        · intro h; exact absurd h (by simp)
        · rintro ⟨q, (rfl | hq), hqu⟩
          · rw [hu] at hqu; cases hqu
          · exact absurd ((ih (i + 1)).mpr ⟨q, hq, hqu⟩) (by simp [hrest])

theorem renderFrom_times (l : List (Nat × Tweet)) (i : Nat) (rows : List Row)
    (h : renderFrom i l = some rows) :
    rows.map (·.time) = l.map (fun kt => formatHMS kt.2.created_at) := by
  induction l generalizing i rows with
  | nil =>
    simp only [renderFrom] at h
    obtain rfl : ([] : List Row) = rows := by injection h
    simp
  | cons kt rest ih =>
    simp only [renderFrom] at h
    cases hr : renderRow i kt with
    | none => rw [hr] at h; cases h
    | some row =>
      rw [hr] at h
      cases hrest : renderFrom (i + 1) rest with
      | none => rw [hrest] at h; cases h
      | some rows' =>
        rw [hrest] at h
        obtain rfl : row :: rows' = rows := by injection h
        have htime : row.time = formatHMS kt.2.created_at := by
          cases hu : kt.2.user with
          | none => simp [renderRow, hu] at hr
          | some u =>
            simp only [renderRow, hu] at hr
            obtain rfl : _ = row := by injection hr
            rfl
        simp [htime, ih (i + 1) rows' hrest]

theorem renderFrom_colors (l : List (Nat × Tweet)) (i : Nat) (rows : List Row)
    (h : renderFrom i l = some rows) :
    ∀ j (hj : j < rows.length),
      (rows.get ⟨j, hj⟩).color = paletteColor (i + j) := by
  induction l generalizing i rows with
  | nil =>
    simp only [renderFrom] at h
    obtain rfl : ([] : List Row) = rows := by injection h
    intro j hj; simp at hj
  | cons kt rest ih =>
    simp only [renderFrom] at h
    cases hr : renderRow i kt with
    | none => rw [hr] at h; cases h
    | some row =>
      rw [hr] at h
      cases hrest : renderFrom (i + 1) rest with
      | none => rw [hrest] at h; cases h
      | some rows' =>
        rw [hrest] at h
        obtain rfl : row :: rows' = rows := by injection h
        intro j hj
        cases j with
        | zero =>
          have hcol : row.color = paletteColor i := by
            cases hu : kt.2.user with
            | none => simp [renderRow, hu] at hr
            | some u =>
              simp only [renderRow, hu] at hr
              obtain rfl : _ = row := by injection hr
              rfl
          simpa using hcol
        | succ j' =>
          have hj' : j' < rows'.length := by
            simpa [Nat.succ_lt_succ_iff] using hj
          have := ih (i + 1) rows' hrest j' hj'
          simpa [Nat.add_assoc, Nat.add_comm 1 j'] using this

/-! ## Config and auth (`get_token`)

`get_token` resolves the home directory, reads and parses
`<home>/.config/twrs/config.toml`, and either converts a stored token or
runs the interactive OAuth PIN flow. Every external effect result is a
field of `AuthEnv`; `get_token` returns its outcome together with the
trace of effects performed on the taken path. -/

/-- Parsed TOML config schema: `[twitter] key secret` plus the optional
`[twitter.token]` table. -/
structure Twitter where
  key : String
  secret : String
  token : Option Token
deriving DecidableEq, Repr

/-- The top-level config struct. -/
structure Config where
  twitter : Twitter
deriving DecidableEq, Repr

/-- Observable side effects of `get_token`, in program order. -/
inductive Effect where
  | netRequestToken
  | printAuthUrl
  | readPin
  | netAccessToken
  | writeConfig
deriving DecidableEq, Repr

/-- Result of running `get_token`: a value, a propagated `Error`, or a
panic (`panic!("wrong token type")`). -/
inductive Outcome (α : Type) where
  | ok (a : α)
  | err (e : Error)
  | panicWith (msg : String)
deriving DecidableEq, Repr

/-- Results of the external effects `get_token` may perform, passed as
data: home-directory lookup, config-file read, TOML parse, the two OAuth
network calls, the interactive PIN prompt, and the config-file write. -/
structure AuthEnv where
  home : Option Unit
  readResult : Except String String
  parse : String → Except String Config
  requestTokenResult : Except String KeyPair
  pinResult : Except String String
  accessTokenResult : Except String EggToken
  writeResult : Except String Unit

/-- The config-loading prefix of `get_token`: resolve home (else
`Error.Config`), read the file (`?` wraps the io error as `Error.Io`),
parse it (`?` wraps the TOML error as `Error.TOMLDeserialize`). -/
def loadConfig (env : AuthEnv) : Except Error Config :=
  match env.home with
  | none => .error (.Config "unable to find home directory")
  | some _ =>
      match env.readResult with
      | .error m => .error (.Io m)
      | .ok contents =>
          match env.parse contents with
          | .error m => .error (.TOMLDeserialize m)
          | .ok cfg => .ok cfg

/-- The spec's `ConfigError` class: the errors `load` can produce
(missing home dir, unreadable file, unparsable file). -/
def IsConfigError : Error → Prop
  | .Config _ => True
  | .Io _ => True
  | .TOMLDeserialize _ => True
  | _ => False

/-- The `get_token` function. With a stored token it converts and returns
it at once (empty effect trace). Otherwise it requests an OAuth token,
prints the authorization URL, reads a PIN, exchanges it, converts the
fresh token to the storable form — panicking on a `Bearer` token — writes
the config back, and returns the fresh token. -/
def get_token (env : AuthEnv) : Outcome EggToken × List Effect :=
  match loadConfig env with
  | .error e => (.err e, [])
  | .ok cfg =>
      match cfg.twitter.token with
      | some t => (.ok t.toEgg, [])
      | none =>
          match env.requestTokenResult with
          | .error m => (.err (.Twitter m), [.netRequestToken])
          | .ok _ =>
              match env.pinResult with
              | .error m =>
                  (.err (.Io m), [.netRequestToken, .printAuthUrl, .readPin])
              | .ok _ =>
                  match env.accessTokenResult with
                  | .error m =>
                      (.err (.Twitter m),
                       [.netRequestToken, .printAuthUrl, .readPin,
                        .netAccessToken])
                  | .ok tok =>
                      match Token.fromEgg tok with
                      | none =>
                          (.panicWith "wrong token type",
                           [.netRequestToken, .printAuthUrl, .readPin,
                            .netAccessToken])
                      | some _ =>
                          match env.writeResult with
                          | .error m =>
                              (.err (.Io m),
                               [.netRequestToken, .printAuthUrl, .readPin,
                                .netAccessToken, .writeConfig])
                          | .ok _ =>
                              (.ok tok,
                               [.netRequestToken, .printAuthUrl, .readPin,
                                .netAccessToken, .writeConfig])

/-- An effect trace is free of OAuth network steps. -/
def NetworkFree (tr : List Effect) : Prop :=
  Effect.netRequestToken ∉ tr ∧ Effect.netAccessToken ∉ tr

/-! ## TOML round-trip (schema of `Config`)

The `toml` crate is an external collaborator; its serialization of the
`Config` schema is modelled from the spec as structured text: a tree of
string leaves and key/value tables (spec section 6 schema). Modelled from
the spec: `toml::to_string_pretty` / `toml::from_str` restricted to the
`Config` schema. -/

/-- TOML-equivalent structured text. -/
inductive TomlVal where
  | str (s : String)
  | table (entries : List (String × TomlVal))

/-- Field lookup in a table. -/
def tlookup (k : String) : List (String × TomlVal) → Option TomlVal
  | [] => none
  | (k', v) :: rest => if k = k' then some v else tlookup k rest

/-- Serialization of a key pair: `{ key, secret }`. -/
def serializeKeyPair (kp : KeyPair) : TomlVal :=
  .table [("key", .str kp.key), ("secret", .str kp.secret)]

/-- Serialization of the stored token table. -/
def serializeToken (t : Token) : TomlVal :=
  .table [("consumer", serializeKeyPair t.consumer),
          ("access", serializeKeyPair t.access)]

/-- Serialization of the `[twitter]` table; the `token` key is present
exactly when a token is stored. -/
def serializeTwitter (tw : Twitter) : TomlVal :=
  .table ([("key", .str tw.key), ("secret", .str tw.secret)] ++
    (match tw.token with
     | none => []
     | some t => [("token", serializeToken t)]))

/-- Serialization of the whole config. -/
def serializeConfig (c : Config) : TomlVal :=
  .table [("twitter", serializeTwitter c.twitter)]

/-- Deserialization of a key pair. -/
def parseKeyPair : TomlVal → Except String KeyPair
  | .table es =>
      match tlookup "key" es, tlookup "secret" es with
      | some (.str k), some (.str s) => .ok { key := k, secret := s }
      | _, _ => .error "invalid key pair"
  | _ => .error "invalid key pair"

/-- Deserialization of the stored token table. -/
def parseToken (v : TomlVal) : Except String Token :=
  match v with
  | .table es =>
      match tlookup "consumer" es, tlookup "access" es with
      | some cv, some av =>
          match parseKeyPair cv, parseKeyPair av with
          | .ok c, .ok a => .ok { consumer := c, access := a }
          | _, _ => .error "invalid token"
      | _, _ => .error "invalid token"
  | _ => .error "invalid token"

/-- Deserialization of the `[twitter]` table. -/
def parseTwitter (v : TomlVal) : Except String Twitter :=
  match v with
  | .table es =>
      match tlookup "key" es, tlookup "secret" es with
      | some (.str k), some (.str s) =>
          match tlookup "token" es with
          | none => .ok { key := k, secret := s, token := none }
          | some tv =>
              match parseToken tv with
              | .ok t => .ok { key := k, secret := s, token := some t }
              | .error m => .error m
      | _, _ => .error "invalid twitter table"
  | _ => .error "invalid twitter table"

/-- Deserialization of the whole config. -/
def parseConfigToml (v : TomlVal) : Except String Config :=
  match v with
  | .table es =>
      match tlookup "twitter" es with
      | some tv =>
          match parseTwitter tv with
          | .ok tw => .ok { twitter := tw }
          | .error m => .error m
      | none => .error "missing twitter table"
  | _ => .error "invalid config"

/-! ## The poll loop (`main`)

`main` loops forever: `widget = widget.update().await?`, then
`terminal.draw(|f| f.render_widget(&widget, f.size()))?`, then a fixed
5000 ms sleep. The loop body has no `break`; it can stop only when an
iteration unwinds: a fetch error propagated by the first `?`, the render
panic inside the draw closure (the `unwrap` on a missing `user`, modelled
by `renderRows` returning `none`), or a terminal I/O error propagated by
the draw's `?` (wrapped as `Error.Io`) — besides external process
interruption. The fetch and the terminal I/O are external; their
per-iteration results are passed as data. The loop is modelled with fuel:
`.ok` after `n` steps means the loop is still running. -/

def runLoop (fetches : Nat → Except Error (Timeline × List Tweet))
    (draws : Nat → Except String Unit) :
    Nat → TimelineRenderer → Nat → Outcome TimelineRenderer
  | 0, r, _ => .ok r
  | fuel + 1, r, i =>
      match TimelineRenderer.update r (fetches i) with
      | .error e => .err e
      | .ok r' =>
          match renderRows r'.tweets with
          | none => .panicWith "called Option::unwrap on a None value"
          | some _ =>
              match draws i with
              | .error m => .err (.Io m)
              | .ok _ => runLoop fetches draws fuel r' (i + 1)

/-! ## Concrete fixtures used by the witness theorems -/

/-- A concrete tweet at timestamp 5 by alice. -/
def twA : Tweet :=
  { created_at := 5, user := some { screen_name := "alice" }, text := "first" }

/-- A concrete tweet at the same timestamp 5 by bob. -/
def twB : Tweet :=
  { created_at := 5, user := some { screen_name := "bob" }, text := "second" }

/-- A fresh renderer with cursor 0. -/
def rend0 : TimelineRenderer := TimelineRenderer.new { cursor := 0 }

/-- A concrete stored token. -/
def tokenA : Token :=
  { consumer := { key := "ck", secret := "cs" },
    access := { key := "ak", secret := "asec" } }

/-- A concrete parsed config with a stored token. -/
def cfgStored : Config :=
  { twitter := { key := "ck", secret := "cs", token := some tokenA } }

/-- A concrete parsed config without a stored token. -/
def cfgNoToken : Config :=
  { twitter := { key := "ck", secret := "cs", token := none } }

/-! ## Claims -/

/-- C1: for every buffer state and fetched page, `update` inserts each
fetched post into the buffer keyed by its timestamp, and when two inserted
posts share a timestamp the later-inserted one is the one present
(last-write-wins, silent overwrite): the merged buffer maps each timestamp
to the last fetched post carrying it, falling back to the old buffer
entry, and each fetched post's timestamp is mapped to the last fetched
post sharing that timestamp. -/
theorem update_inserts_last_write_wins (r : TimelineRenderer) (tl : Timeline)
    (posts : List Tweet) (t : Nat) (p : Tweet) (hp : p ∈ posts) :
    ∃ r', TimelineRenderer.update r (.ok (tl, posts)) = .ok r' ∧
      lookupTs t r'.tweets = (lastAt t posts).or (lookupTs t r.tweets) ∧
      ∃ q, q ∈ posts ∧ q.created_at = p.created_at ∧
        lookupTs p.created_at r'.tweets = some q := by
  refine ⟨_, rfl, lookupTs_mergeTweets _ _ _, ?_⟩
  have hsome := lastAt_isSome_of_mem p posts hp
  cases hq : lastAt p.created_at posts with
  | none => rw [hq] at hsome; simp at hsome
  | some q =>
    obtain ⟨hmem, hts⟩ := lastAt_mem _ _ _ hq
    refine ⟨q, hmem, hts, ?_⟩
    rw [lookupTs_mergeTweets, hq]
    rfl

/-- Witness for C1: merging two posts that share timestamp 5 into an empty
buffer leaves bob's post (the later-inserted) at key 5. -/
theorem update_inserts_last_write_wins_witness :
    ∃ r', TimelineRenderer.update rend0 (.ok (⟨1⟩, [twA, twB])) = .ok r' ∧
      lookupTs 5 r'.tweets = (lastAt 5 [twA, twB]).or (lookupTs 5 rend0.tweets) ∧
      ∃ q, q ∈ [twA, twB] ∧ q.created_at = twA.created_at ∧
        lookupTs twA.created_at r'.tweets = some q :=
  update_inserts_last_write_wins rend0 ⟨1⟩ [twA, twB] 5 twA (by decide)

/-- C5: the buffer grows monotonically across every sequence of successful
update calls: a timestamp present in the buffer before the run of the poll
loop is still present after any number of successful iterations. -/
theorem buffer_monotone_growth
    (fetches : Nat → Except Error (Timeline × List Tweet))
    (draws : Nat → Except String Unit)
    (fuel i : Nat) (r r' : TimelineRenderer) (t : Nat)
    (h : runLoop fetches draws fuel r i = .ok r')
    (hv : (lookupTs t r.tweets).isSome) :
    (lookupTs t r'.tweets).isSome := by
  induction fuel generalizing r i with
  | zero =>
    simp only [runLoop] at h
    obtain rfl : r = r' := by injection h
    exact hv
  | succ n ih =>
    simp only [runLoop] at h
    cases hf : fetches i with
    | error e =>
      rw [hf] at h
      simp [TimelineRenderer.update] at h
    | ok pr =>
      obtain ⟨tl, posts⟩ := pr
      rw [hf] at h
      simp only [TimelineRenderer.update] at h
      cases hrr : renderRows (mergeTweets r.tweets posts) with
      | none => rw [hrr] at h; cases h
      | some rows =>
        rw [hrr] at h
        cases hd : draws i with
        | error m => rw [hd] at h; cases h
        | ok u =>
          rw [hd] at h
          refine ih _ _ h ?_
          rw [lookupTs_mergeTweets]
          cases hl : lastAt t posts with
          | some q => simp [Option.or]
          | none => simpa [Option.or] using hv

/-- Witness for C5: the entry at key 5 survives two successful polls
(fetch, render and draw all succeeding). -/
theorem buffer_monotone_growth_witness :
    (lookupTs 5 (TimelineRenderer.mk ⟨1⟩ [(5, twA)]).tweets).isSome :=
  buffer_monotone_growth (fun _ => .ok (⟨1⟩, [])) (fun _ => .ok ()) 2 0
    (TimelineRenderer.mk ⟨0⟩ [(5, twA)]) (TimelineRenderer.mk ⟨1⟩ [(5, twA)])
    5 rfl (by decide)

/-- C9: merging a fetched page into an empty buffer yields a buffer whose
size is the number of distinct timestamps among the fetched posts. -/
theorem empty_merge_size_distinct (tl tl2 : Timeline) (posts : List Tweet) :
    ∃ r', TimelineRenderer.update (TimelineRenderer.new tl)
        (.ok (tl2, posts)) = .ok r' ∧
      r'.tweets.length = (posts.map (·.created_at)).dedup.length := by
  refine ⟨_, rfl, ?_⟩
  have hsorted : SortedKeys (mergeTweets [] posts) :=
    sortedKeys_mergeTweets [] posts (by simp [SortedKeys, keysOf])
  have hnd : (keysOf (mergeTweets [] posts)).Nodup :=
    keysOf_nodup_of_sorted _ hsorted
  have hnd2 : (posts.map (·.created_at)).dedup.Nodup := List.nodup_dedup _
  have hmem : ∀ t, t ∈ keysOf (mergeTweets [] posts) ↔
      t ∈ (posts.map (·.created_at)).dedup := by
    intro t
    rw [List.mem_dedup, mem_keysOf_mergeTweets]
    simp [keysOf]
  have hperm := (List.perm_ext_iff_of_nodup hnd hnd2).mpr hmem
  have hlen := hperm.length_eq
  simpa [keysOf] using hlen

/-- Witness for C9: two posts sharing timestamp 5 merge into a one-entry
buffer. -/
theorem empty_merge_size_distinct_witness :
    ∃ r', TimelineRenderer.update (TimelineRenderer.new ⟨0⟩)
        (.ok (⟨1⟩, [twA, twB])) = .ok r' ∧
      r'.tweets.length = ([twA, twB].map (·.created_at)).dedup.length :=
  empty_merge_size_distinct ⟨0⟩ ⟨1⟩ [twA, twB]

/-- C10: rendering is partial exactly at missing users: the render pass
panics (returns `none`, modelling the `unwrap`) precisely when some
buffered tweet has no `user`, and succeeds precisely when every buffered
tweet carries one. -/
theorem render_requires_users (b : TsMap Tweet) :
    (renderRows b = none ↔ ∃ kt ∈ b, kt.2.user = none) ∧
    ((∃ rows, renderRows b = some rows) ↔ ∀ kt ∈ b, kt.2.user ≠ none) := by
  have h1 : renderRows b = none ↔ ∃ kt ∈ b, kt.2.user = none := by
    rw [renderRows, renderFrom_eq_none_iff]
    constructor
    · rintro ⟨kt, hkt, hu⟩; exact ⟨kt, List.mem_reverse.mp hkt, hu⟩
    · rintro ⟨kt, hkt, hu⟩; exact ⟨kt, List.mem_reverse.mpr hkt, hu⟩
  refine ⟨h1, ?_, ?_⟩
  · rintro ⟨rows, hr⟩ kt hkt hnone
    have : renderRows b = none := h1.mpr ⟨kt, hkt, hnone⟩
    rw [this] at hr
    cases hr
  · intro hall
    cases hrr : renderRows b with
    | some rows => exact ⟨rows, rfl⟩
    | none =>
      obtain ⟨kt, hkt, hu⟩ := h1.mp hrr
      exact absurd hu (hall kt hkt)

/-- Witness for C10: a buffer holding one tweet without a user renders to
`none` (the modelled panic). -/
theorem render_requires_users_witness :
    renderRows [(0, ⟨0, none, "x"⟩)] = none :=
  (render_requires_users [(0, ⟨0, none, "x"⟩)]).1.mpr
    ⟨(0, ⟨0, none, "x"⟩), by decide, rfl⟩

/-- C2: for every reachable renderer state, the panel presents the buffer
reverse-chronologically (newest first): the buffer's key sequence taken in
iteration order and reversed is strictly decreasing (hence non-increasing),
and the rendered rows follow exactly that order — row `i` shows the
formatted time of the `i`-th key of the reversed sequence. -/
theorem render_reverse_chronological (r : TimelineRenderer) (rows : List Row)
    (hr : Reaches r) (h : renderRows r.tweets = some rows) :
    ((keysOf r.tweets).reverse).Pairwise (· > ·) ∧
    rows.map (·.time) = ((keysOf r.tweets).reverse).map formatHMS := by
  obtain ⟨hs, hk⟩ := reaches_invariant r hr
  constructor
  · rw [List.pairwise_reverse]
    exact hs
  · rw [renderRows] at h
    have htimes := renderFrom_times _ 0 rows h
    rw [htimes, keysOf, ← List.map_reverse, List.map_map]
    apply List.map_congr_left
    intro kt hkt
    have := hk kt (List.mem_reverse.mp hkt)
    simp [Function.comp, ← this]

/-- Witness for C2: a reachable one-tweet buffer renders to one row whose
time is the tweet's formatted timestamp. -/
theorem render_reverse_chronological_witness :
    ((keysOf (TimelineRenderer.mk ⟨1⟩ [(5, twA)]).tweets).reverse).Pairwise
        (· > ·) ∧
    ([{ time := formatHMS 5, color := paletteColor 0,
        username := "alice", text := "first" }] : List Row).map
        (fun row => row.time) =
      ((keysOf (TimelineRenderer.mk ⟨1⟩ [(5, twA)]).tweets).reverse).map
        formatHMS :=
  render_reverse_chronological (TimelineRenderer.mk ⟨1⟩ [(5, twA)])
    [{ time := formatHMS 5, color := paletteColor 0,
       username := "alice", text := "first" }]
    (Reaches.step ⟨1⟩ [twA] (Reaches.base ⟨0⟩) rfl) rfl

/-- C3: the color of the author handle of rendered row `i` is
`TABLEAU10[i % TABLEAU10.length]` — a function of the row position only,
for every row index `i`. -/
theorem render_color_positional (b : TsMap Tweet) (rows : List Row)
    (i : Nat) (h : renderRows b = some rows) (hi : i < rows.length) :
    (rows.get ⟨i, hi⟩).color =
      TABLEAU10.get ⟨i % TABLEAU10.length, Nat.mod_lt _ (by decide)⟩ := by
  rw [renderRows] at h
  have := renderFrom_colors _ 0 rows h i hi
  simpa [paletteColor] using this

/-- An eleven-tweet buffer (timestamps 0..10), one more than the palette
size, for the color-cycle witness. -/
def bufC3 : TsMap Tweet :=
  [(0, ⟨0, some ⟨"u0"⟩, "t0"⟩), (1, ⟨1, some ⟨"u1"⟩, "t1"⟩),
   (2, ⟨2, some ⟨"u2"⟩, "t2"⟩), (3, ⟨3, some ⟨"u3"⟩, "t3"⟩),
   (4, ⟨4, some ⟨"u4"⟩, "t4"⟩), (5, ⟨5, some ⟨"u5"⟩, "t5"⟩),
   (6, ⟨6, some ⟨"u6"⟩, "t6"⟩), (7, ⟨7, some ⟨"u7"⟩, "t7"⟩),
   (8, ⟨8, some ⟨"u8"⟩, "t8"⟩), (9, ⟨9, some ⟨"u9"⟩, "t9"⟩),
   (10, ⟨10, some ⟨"u10"⟩, "t10"⟩)]

/-- The rows `bufC3` renders to: newest first, colors cycling through the
palette and wrapping at row 10. -/
def rowsC3 : List Row :=
  [⟨formatHMS 10, paletteColor 0, "u10", "t10"⟩,
   ⟨formatHMS 9, paletteColor 1, "u9", "t9"⟩,
   ⟨formatHMS 8, paletteColor 2, "u8", "t8"⟩,
   ⟨formatHMS 7, paletteColor 3, "u7", "t7"⟩,
   ⟨formatHMS 6, paletteColor 4, "u6", "t6"⟩,
   ⟨formatHMS 5, paletteColor 5, "u5", "t5"⟩,
   ⟨formatHMS 4, paletteColor 6, "u4", "t4"⟩,
   ⟨formatHMS 3, paletteColor 7, "u3", "t3"⟩,
   ⟨formatHMS 2, paletteColor 8, "u2", "t2"⟩,
   ⟨formatHMS 1, paletteColor 9, "u1", "t1"⟩,
   ⟨formatHMS 0, paletteColor 10, "u0", "t0"⟩]

/-- Witness for C3: in an eleven-row render, row 10 — one full palette
cycle past zero — wears `TABLEAU10[10 % 10]`, the first palette color
again. -/
theorem render_color_positional_witness :
    (rowsC3.get ⟨10, by decide⟩).color =
      TABLEAU10.get ⟨10 % TABLEAU10.length, Nat.mod_lt _ (by decide)⟩ :=
  render_color_positional bufC3 rowsC3 10 rfl (by decide)

/-- An environment with no stored token whose OAuth exchange hands back a
bearer token. -/
def envBearer : AuthEnv :=
  { home := some ()
    readResult := .ok "cfg"
    parse := fun _ => .ok cfgNoToken
    requestTokenResult := .ok { key := "rk", secret := "rs" }
    pinResult := .ok "1234"
    accessTokenResult := .ok (.Bearer "btok")
    writeResult := .ok () }

/-- Counterexample to C4: `get_token` hard-fails (the
`panic!("wrong token type")` in `From<egg_mode::Token> for Token`) on an
environment whose parsed config stores no token at all — the panic is
decided by the token the OAuth exchange returns, not by the stored token,
so the claimed equivalence fails in the only-if direction. -/
theorem get_token_panics_without_stored_token :
    (get_token envBearer).1 = .panicWith "wrong token type" ∧
    envBearer.parse "cfg" = .ok cfgNoToken ∧
    cfgNoToken.twitter.token = none :=
  ⟨rfl, rfl, rfl⟩

/-- C4 (amended): `get_token` panics exactly when the config loads with no
stored token and the interactive flow's access-token exchange returns a
token of the unsupported bearer kind; and when the credentials embed a
stored access token, `get_token` converts and returns it with an empty
effect trace — no OAuth network step at all. -/
theorem get_token_panic_exactly_on_bearer_exchange (env : AuthEnv) :
    ((∃ m, (get_token env).1 = .panicWith m) ↔
      ∃ cfg s, loadConfig env = .ok cfg ∧ cfg.twitter.token = none ∧
        (∃ rt, env.requestTokenResult = .ok rt) ∧
        (∃ pin, env.pinResult = .ok pin) ∧
        env.accessTokenResult = .ok (.Bearer s)) ∧
    (∀ cfg t, loadConfig env = .ok cfg → cfg.twitter.token = some t →
      get_token env = (.ok t.toEgg, [])) := by
  constructor
  · cases hl : loadConfig env with
    | error e =>
      simp only [get_token, hl]
      constructor
      · rintro ⟨m, hm⟩; cases hm
      · rintro ⟨cfg, s, hcfg, _⟩; cases hcfg
    | ok cfg =>
      cases htok : cfg.twitter.token with
      | some t =>
        simp only [get_token, hl, htok]
        constructor
        · rintro ⟨m, hm⟩; cases hm
        · rintro ⟨cfg', s, hcfg', htok', _⟩
          obtain rfl : cfg = cfg' := by injection hcfg'
          rw [htok] at htok'
          cases htok'
      | none =>
        cases hreq : env.requestTokenResult with
        | error m =>
          simp only [get_token, hl, htok, hreq]
          constructor
          · rintro ⟨m', hm⟩; cases hm
          · rintro ⟨cfg', s, hcfg', htok', ⟨rt, hrt⟩, _⟩
            cases hrt
        | ok rt =>
          cases hpin : env.pinResult with
          | error m =>
            simp only [get_token, hl, htok, hreq, hpin]
            constructor
            · rintro ⟨m', hm⟩; cases hm
            · rintro ⟨cfg', s, hcfg', htok', _, ⟨pin, hpin'⟩, _⟩
              cases hpin'
          | ok pin =>
            cases hacc : env.accessTokenResult with
            | error m =>
              simp only [get_token, hl, htok, hreq, hpin, hacc]
              constructor
              · rintro ⟨m', hm⟩; cases hm
              · rintro ⟨cfg', s, hcfg', htok', _, _, hacc'⟩
                cases hacc'
            | ok tok =>
              cases tok with
              | Bearer s =>
                simp only [get_token, hl, htok, hreq, hpin, hacc,
                  Token.fromEgg]
                constructor
                · intro _
                  exact ⟨cfg, s, rfl, htok, ⟨rt, rfl⟩, ⟨pin, rfl⟩, rfl⟩
                · intro _
                  exact ⟨"wrong token type", rfl⟩
              | Access c a =>
                simp only [get_token, hl, htok, hreq, hpin, hacc,
                  Token.fromEgg]
                constructor
                · rintro ⟨m', hm⟩
                  cases hw : env.writeResult with
                  | error m₂ => rw [hw] at hm; cases hm
                  | ok u => rw [hw] at hm; cases hm
                · rintro ⟨cfg', s, hcfg', htok', _, _, hacc'⟩
                  cases hacc'
  · intro cfg t hl htok
    simp [get_token, hl, htok]

/-- An environment embedding a stored access token; every network-effect
field is an error, so a successful result shows none of them was used. -/
def envStored : AuthEnv :=
  { home := some ()
    readResult := .ok "cfg"
    parse := fun _ => .ok cfgStored
    requestTokenResult := .error "unused"
    pinResult := .error "unused"
    accessTokenResult := .error "unused"
    writeResult := .error "unused" }

/-- Witness for C4 (amended): with a stored token, `get_token` returns its
conversion with an empty effect trace. -/
theorem get_token_stored_token_witness :
    get_token envStored = (.ok tokenA.toEgg, []) :=
  (get_token_panic_exactly_on_bearer_exchange envStored).2 cfgStored tokenA
    rfl rfl

/-- C6: `loadConfig` returns the parsed config exactly when the home
directory resolves, the config file reads, and its contents parse; it
fails exactly when one of those three steps fails, and every error it
produces is of the config-error class (missing home directory, unreadable
file, unparsable file). -/
theorem loadConfig_ok_and_error_conditions (env : AuthEnv) :
    (∀ c, loadConfig env = .ok c ↔
      env.home ≠ none ∧ ∃ s, env.readResult = .ok s ∧ env.parse s = .ok c) ∧
    ((∃ e, loadConfig env = .error e) ↔
      (env.home = none ∨ (∃ m, env.readResult = .error m) ∨
       (∃ s m, env.readResult = .ok s ∧ env.parse s = .error m))) ∧
    (∀ e, loadConfig env = .error e → IsConfigError e) := by
  cases hh : env.home with
  | none =>
    refine ⟨?_, ?_, ?_⟩
    · intro c
      simp [loadConfig, hh]
    · simp [loadConfig, hh]
    · intro e he
      simp only [loadConfig, hh] at he
      obtain rfl : Error.Config "unable to find home directory" = e := by
        injection he
      simp [IsConfigError]
  | some u =>
    cases hr : env.readResult with
    | error m =>
      refine ⟨?_, ?_, ?_⟩
      · intro c
        simp [loadConfig, hh, hr]
      · simp [loadConfig, hh, hr]
      · intro e he
        simp only [loadConfig, hh, hr] at he
        obtain rfl : Error.Io m = e := by injection he
        simp [IsConfigError]
    | ok s =>
      cases hp : env.parse s with
      | error m =>
        refine ⟨?_, ?_, ?_⟩
        · intro c
          simp [loadConfig, hh, hr, hp]
        · simp [loadConfig, hh, hr, hp]
        · intro e he
          simp only [loadConfig, hh, hr, hp] at he
          obtain rfl : Error.TOMLDeserialize m = e := by injection he
          simp [IsConfigError]
      | ok c0 =>
        refine ⟨?_, ?_, ?_⟩
        · intro c
          simp [loadConfig, hh, hr, hp]
        · simp [loadConfig, hh, hr, hp]
        · intro e he
          simp [loadConfig, hh, hr, hp] at he

/-- Witness for C6 is not needed in itself (no hypothesis), but the
successful path is exercised on `envStored`. -/
theorem loadConfig_ok_and_error_conditions_witness :
    loadConfig envStored = .ok cfgStored ↔
      envStored.home ≠ none ∧
        ∃ s, envStored.readResult = .ok s ∧ envStored.parse s = .ok cfgStored :=
  (loadConfig_ok_and_error_conditions envStored).1 cfgStored

/-- C7: serializing a config with a populated token to the structured
config text and parsing it back yields the original structure. -/
theorem toml_round_trip (c : Config) (t : Token)
    (h : c.twitter.token = some t) :
    parseConfigToml (serializeConfig c) = .ok c := by
  obtain ⟨⟨k, s, tok⟩⟩ := c
  obtain ⟨⟨ck, cs⟩, ⟨ak, asec⟩⟩ := t
  have h' : tok = some ⟨⟨ck, cs⟩, ⟨ak, asec⟩⟩ := h
  subst h'
  rfl

/-- Witness for C7: the round trip on a concrete credential set with a
stored token. -/
theorem toml_round_trip_witness :
    parseConfigToml (serializeConfig cfgStored) = .ok cfgStored :=
  toml_round_trip cfgStored tokenA rfl

/-- Fetch oracle that always succeeds with a one-post page by alice. -/
def fetchA : Nat → Except Error (Timeline × List Tweet) :=
  fun _ => .ok (⟨1⟩, [twA])

/-- Fetch oracle that always fails. -/
def fetchErr : Nat → Except Error (Timeline × List Tweet) :=
  fun _ => .error (.Twitter "boom")

/-- Fetch oracle that always succeeds with a page holding one tweet
without a user. -/
def fetchNoUser : Nat → Except Error (Timeline × List Tweet) :=
  fun _ => .ok (⟨1⟩, [⟨0, none, "x"⟩])

/-- Draw oracle whose terminal I/O always succeeds. -/
def drawsOk : Nat → Except String Unit := fun _ => .ok ()

/-- Draw oracle whose terminal I/O always fails. -/
def drawsErr : Nat → Except String Unit := fun _ => .error "draw failed"

/-- Counterexample to C8: every fetch of `fetchA` succeeds, yet the loop
exits on its first iteration — the `terminal.draw(...)?` step's I/O error
is an additional self-inflicted exit path beside the fetch error, so the
loop's exits are not limited to process interruption and fetch errors. -/
theorem loop_draw_error_aborts_despite_fetches :
    (∀ k, ∃ v, fetchA k = .ok v) ∧
    runLoop fetchA drawsErr 1 rend0 0 = .err (.Io "draw failed") :=
  ⟨fun _ => ⟨(⟨1⟩, [twA]), rfl⟩, rfl⟩

/-- C8 (amended): the poll loop never terminates normally of its own
accord; its self-exits are exactly the failing effects of an iteration,
each aborting at once with no retry, backoff or local recovery, however
much fuel remains: a failing fetch aborts with that very error; a
successful fetch whose merged buffer holds a userless tweet aborts with
the render panic; a successful fetch and render followed by a failing
draw aborts with that I/O error; and when every fetch succeeds, every
fetched and buffered tweet carries a user, and every draw succeeds, the
loop is still running after any number of iterations. -/
theorem loop_exits_only_on_failed_effects
    (fetches : Nat → Except Error (Timeline × List Tweet))
    (draws : Nat → Except String Unit)
    (r : TimelineRenderer) (i : Nat) :
    (∀ fuel e, fetches i = .error e →
      runLoop fetches draws (fuel + 1) r i = .err e) ∧
    (∀ fuel tl posts, fetches i = .ok (tl, posts) →
      renderRows (mergeTweets r.tweets posts) = none →
      runLoop fetches draws (fuel + 1) r i =
        .panicWith "called Option::unwrap on a None value") ∧
    (∀ fuel tl posts rows m, fetches i = .ok (tl, posts) →
      renderRows (mergeTweets r.tweets posts) = some rows →
      draws i = .error m →
      runLoop fetches draws (fuel + 1) r i = .err (.Io m)) ∧
    ((∀ k, ∃ v, fetches k = .ok v) →
      (∀ k tl posts, fetches k = .ok (tl, posts) →
        ∀ p ∈ posts, p.user ≠ none) →
      (∀ kt ∈ r.tweets, kt.2.user ≠ none) →
      (∀ k, draws k = .ok ()) →
      ∀ fuel, ∃ r', runLoop fetches draws fuel r i = .ok r') := by
  refine ⟨?_, ?_, ?_, ?_⟩
  · intro fuel e hf
    simp [runLoop, hf, TimelineRenderer.update]
  · intro fuel tl posts hf hrend
    simp [runLoop, hf, TimelineRenderer.update, hrend]
  · intro fuel tl posts rows m hf hrend hd
    simp [runLoop, hf, TimelineRenderer.update, hrend, hd]
  · intro hok huser hbuf hdraw
    have hgen : ∀ fuel (r₀ : TimelineRenderer) (j : Nat),
        (∀ kt ∈ r₀.tweets, kt.2.user ≠ none) →
        ∃ r', runLoop fetches draws fuel r₀ j = .ok r' := by
      intro fuel
      induction fuel with
      | zero => exact fun r₀ j _ => ⟨r₀, rfl⟩
      | succ n ih =>
        intro r₀ j hb
        obtain ⟨⟨tl, posts⟩, hf⟩ := hok j
        have hb' : ∀ kt ∈ mergeTweets r₀.tweets posts,
            kt.2.user ≠ none := by
          intro kt hkt
          rcases mem_mergeTweets r₀.tweets posts kt hkt with hin | ⟨p, hp, rfl⟩
          · exact hb kt hin
          · exact huser j tl posts hf p hp
        cases hrr : renderRows (mergeTweets r₀.tweets posts) with
        | none =>
          obtain ⟨kt, hkt, hu⟩ := (renderFrom_eq_none_iff _ 0).mp hrr
          exact absurd hu (hb' kt (List.mem_reverse.mp hkt))
        | some rows =>
          obtain ⟨r', hr'⟩ :=
            ih { timeline := tl, tweets := mergeTweets r₀.tweets posts }
              (j + 1) hb'
          exact ⟨r', by
            simp [runLoop, hf, TimelineRenderer.update, hrr, hdraw j, hr']⟩
    exact fun fuel => hgen fuel r i hbuf

/-- Witness for C8 (amended): all four exits exercised concretely — the
failing fetch aborts with its error, the userless fetch aborts with the
render panic, the failing draw aborts with its I/O error, and with all
effects succeeding the loop is still running after three iterations. -/
theorem loop_exits_only_on_failed_effects_witness :
    runLoop fetchErr drawsOk 5 rend0 0 = .err (.Twitter "boom") ∧
    runLoop fetchNoUser drawsOk 5 rend0 0 =
      .panicWith "called Option::unwrap on a None value" ∧
    runLoop fetchA drawsErr 5 rend0 0 = .err (.Io "draw failed") ∧
    ∃ r', runLoop fetchA drawsOk 3 rend0 0 = .ok r' :=
  ⟨(loop_exits_only_on_failed_effects fetchErr drawsOk rend0 0).1 4
      (.Twitter "boom") rfl,
   (loop_exits_only_on_failed_effects fetchNoUser drawsOk rend0 0).2.1 4
      ⟨1⟩ [⟨0, none, "x"⟩] rfl rfl,
   (loop_exits_only_on_failed_effects fetchA drawsErr rend0 0).2.2.1 4
      ⟨1⟩ [twA] [⟨formatHMS 5, paletteColor 0, "alice", "first"⟩]
      "draw failed" rfl rfl rfl,
   (loop_exits_only_on_failed_effects fetchA drawsOk rend0 0).2.2.2
      (fun _ => ⟨(⟨1⟩, [twA]), rfl⟩)
      (fun k tl posts hf => by
        simp only [fetchA] at hf
        rw [Except.ok.injEq, Prod.mk.injEq] at hf
        obtain ⟨h3, h4⟩ := hf
        subst h4
        intro p hp
        simp only [List.mem_singleton] at hp
        subst hp
        simp [twA])
      (by simp [rend0, TimelineRenderer.new])
      (fun _ => rfl) 3⟩

end Twrs
